import Mathlib

/-!
Verification development for the sno-deploy-load repository.

The definitions below are a shallow embedding of the batch-rollout
orchestrator in `sno-deploy-load/sno-deploy-load.py` and of the health
checker in `sno-deploy-load/cluster-health.py`.  File-system and git side
effects are recorded as an explicit event trace; the external `command`
run-primitive (`utils/command.py`, not part of the sources here) is
modelled from the spec as an oracle returning an exit code.
-/

namespace SnoDeployLoad

/-- Unit name derived from a siteconfig path: `os.path.basename(sno)` followed by
stripping the `-siteconfig.yml` suffix (sno-deploy-load.py lines 105-106). -/
def snoName (path : String) : String :=
  ((path.splitOn "/").getLastD path).replace "-siteconfig.yml" ""

/-- Name of the unit at global index `g` of the sorted inventory `snos`
(out-of-range indices never arise along the paths proved below). -/
def nameAt (snos : List String) (g : Nat) : String :=
  snoName (snos.getD g "")

/-- Observable actions of the orchestrator, in program order.
`render s members written` is the jinja render of shard `s`'s
`kustomization.yaml` from member list `members`, written to disk iff
`written` (i.e. unless dry-run).  `assign g s n` appends unit `g`'s name `n`
to shard `s`'s member list (line 107).  `copy g s` copies unit `g`'s
siteconfig and resources files into shard `s`'s directory (lines 112-118).
The git constructors record the exit code the `command` primitive returned. -/
inductive Event where
  | render (shard : Nat) (members : List String) (written : Bool)
  | assign (g : Nat) (shard : Nat) (name : String)
  | copy (g : Nat) (shard : Nat)
  | gitAdd (file : String) (rc : Nat)
  | gitCommit (startIdx endIdx : Nat) (rc : Nat)
  | gitPush (rc : Nat)
  | ocApply (file : String) (rc : Nat)
  deriving Repr, DecidableEq

/-- Mutable state of one `deploy_ztp_snos` call: `last` is
`last_ztp_app_index`, `apps k` is `ztp_deploy_apps[k]["snos"]`,
`gitFiles` is the `git_files` list, and `trace` the events so far. -/
structure DState where
  last : Nat
  apps : Nat → List String
  gitFiles : List String
  trace : List Event

/-- Line 107: `ztp_deploy_apps[ztp_app_index]["snos"].append(sno_name)`,
with `ztp_app_index = (start_index + idx) // snos_per_app`. -/
def stepApps (snos : List String) (c : Nat) (apps : Nat → List String) (g : Nat) :
    Nat → List String :=
  Function.update apps (g / c) (apps (g / c) ++ [nameAt snos g])

/-- Body of the `for idx, sno in enumerate(snos[start_index:end_index])` loop of
`deploy_ztp_snos` (lines 90-136) for the unit of global index `g`, over shard
capacity `c` (= `snos_per_app`) and shard directories `appsLoc`. -/
def processUnit (snos : List String) (appsLoc : Nat → String) (c : Nat)
    (dryRun tmpl : Bool) (st : DState) (g : Nat) : DState :=
  let a := g / c
  let st1 :=
    if st.last < a then
      { st with
        trace := st.trace ++ [Event.render st.last (st.apps st.last) (!dryRun)]
        gitFiles := st.gitFiles ++ [appsLoc st.last ++ "/kustomization.yaml"]
        last := a }
    else st
  let name := nameAt snos g
  let st2 := { st1 with
    apps := stepApps snos c st1.apps g
    trace := st1.trace ++ [Event.assign g a name] }
  let st3 := { st2 with
    trace := st2.trace ++ [Event.copy g st2.last]
    gitFiles := st2.gitFiles ++
      [appsLoc st2.last ++ "/" ++ name ++ "-siteconfig.yml",
       appsLoc st2.last ++ "/" ++ name ++ "-resources.yml"] }
  if tmpl then
    { st3 with gitFiles := st3.gitFiles ++
        [appsLoc st3.last ++ "/extra-manifests/" ++ name ++ "/01-ns.yaml",
         appsLoc st3.last ++ "/extra-manifests/" ++ name ++ "/test-cm.yaml"] }
  else st3

/-- Sequential enumeration of the batch's global indices. -/
def ztpLoop (snos : List String) (appsLoc : Nat → String) (c : Nat)
    (dryRun tmpl : Bool) : List Nat → DState → DState
  | [], st => st
  | g :: gs, st =>
    ztpLoop snos appsLoc c dryRun tmpl gs (processUnit snos appsLoc c dryRun tmpl st g)

/-- Line 154: the git commit command with its index-range message. -/
def commitCmd (s e : Nat) : List String :=
  ["git", "commit", "-m", "Deploying SNOs " ++ toString s ++ " to " ++ toString e]

/-- Result of a `deploy_ztp_snos` call.  `nameError tr` is the unhandled
`NameError` raised at line 139 when the loop body never ran and the final
render reads the never-bound loop variable `ztp_app_index`; `tr` holds the
events emitted before the raise. -/
inductive DeployOutcome where
  | ok (st : DState)
  | nameError (trace : List Event)

/-- Events of a deploy outcome, whether or not it completed normally. -/
def DeployOutcome.traceOf : DeployOutcome → List Event
  | .ok st => st.trace
  | .nameError tr => tr

/-- True iff the call returned without raising. -/
def DeployOutcome.isNormal : DeployOutcome → Bool
  | .ok _ => true
  | .nameError _ => false

/-- Shallow embedding of `deploy_ztp_snos` (sno-deploy-load.py lines 86-156).
`git` is the rc oracle for the `command` run-primitive.  Modelled from the
spec: `utils/command.py` is not among the sources; per the spec's external
interface it returns `(exitCode, stdoutText)` to the caller, of which only
the exit code is kept here.  The returned codes are recorded in the trace;
the function itself never consults them, exactly as in the source. -/
def deployZtpSnos (snos : List String) (appsLoc : Nat → String)
    (apps0 : Nat → List String) (startIdx endIdx c : Nat)
    (dryRun tmpl : Bool) (git : List String → Nat) : DeployOutcome :=
  let m := min endIdx snos.length
  let gs := List.range' startIdx (m - startIdx)
  let st0 : DState := { last := startIdx / c, apps := apps0, gitFiles := [], trace := [] }
  let st := ztpLoop snos appsLoc c dryRun tmpl gs st0
  match gs.getLast? with
  | none => DeployOutcome.nameError st.trace
  | some gLast =>
    let a := gLast / c
    let st1 := { st with
      trace := st.trace ++ [Event.render a (st.apps a) (!dryRun)]
      gitFiles := st.gitFiles ++ [appsLoc a ++ "/kustomization.yaml"] }
    let st2 := st1.gitFiles.foldl
      (fun s f => { s with trace := s.trace ++ [Event.gitAdd f (git ["git", "add", f])] }) st1
    let st3 := { st2 with
      trace := st2.trace ++ [Event.gitCommit startIdx endIdx (git (commitCmd startIdx endIdx))] }
    let st4 := { st3 with trace := st3.trace ++ [Event.gitPush (git ["git", "push"])] }
    DeployOutcome.ok st4

/-- Names of the units of `[lo, hi)` that land in shard `k`, in index order. -/
def shardMembers (snos : List String) (c lo hi k : Nat) : List String :=
  ((List.range' lo (hi - lo)).filter (fun g => g / c == k)).map (nameAt snos)

/-- Shard member lists after units `start, start+1, …, start+len-1` are assigned. -/
def appsAfter (snos : List String) (c : Nat) :
    Nat → (Nat → List String) → Nat → (Nat → List String)
  | 0, apps, _ => apps
  | len + 1, apps, start => appsAfter snos c len (stepApps snos c apps start) (start + 1)

/-- Value of `last_ztp_app_index` after units `start, …, start+len-1`. -/
def lastAfter (c : Nat) : Nat → Nat → Nat → Nat
  | 0, l0, _ => l0
  | len + 1, l0, start => lastAfter c len (max l0 (start / c)) (start + 1)

/-- Event trace of the deploy loop over units `start, …, start+len-1`, from
member lists `apps` and active shard index `l0`. -/
def batchTrace (snos : List String) (c : Nat) (w : Bool) :
    Nat → (Nat → List String) → Nat → Nat → List Event
  | 0, _, _, _ => []
  | len + 1, apps, l0, start =>
    let a := start / c
    (if l0 < a then [Event.render l0 (apps l0) w] else [])
      ++ Event.assign start a (nameAt snos start)
      :: Event.copy start (max l0 a)
      :: batchTrace snos c w len (stepApps snos c apps start) (max l0 a) (start + 1)

/-- True for the events of the git section of `deploy_ztp_snos` (lines 148-156). -/
def isGitEvent : Event → Bool
  | Event.gitAdd _ _ => true
  | Event.gitCommit _ _ _ => true
  | Event.gitPush _ => true
  | _ => false

/-- Oracle for the run where every git invocation fails. -/
def failingGit : List String → Nat := fun _ => 1

/-- Shared counters dictionary `monitor_data` (sno-deploy-load.py lines 374-389). -/
structure MonitorData where
  sno_applied_committed : Nat
  sno_init : Nat
  sno_notstarted : Nat
  sno_booted : Nat
  sno_discovered : Nat
  sno_installing : Nat
  sno_install_failed : Nat
  sno_install_completed : Nat
  managed : Nat
  policy_init : Nat
  policy_notstarted : Nat
  policy_applying : Nat
  policy_timedout : Nat
  policy_compliant : Nat
  deriving Repr, DecidableEq

/-- All counters zero, the dictionary's initial value. -/
def mdZero : MonitorData := ⟨0, 0, 0, 0, 0, 0, 0, 0, 0, 0, 0, 0, 0, 0⟩

/-- Counters with started = applied = 100, failed 3, completed 97. -/
def mdInstallDone : MonitorData :=
  { mdZero with
    sno_applied_committed := 100, sno_init := 100,
    sno_install_failed := 3, sno_install_completed := 97 }

/-- Counters with started = applied = 100, failed 3, completed only 90. -/
def mdInstallShort : MonitorData :=
  { mdZero with
    sno_applied_committed := 100, sno_init := 100,
    sno_install_failed := 3, sno_install_completed := 90 }

/-- Completion predicate of the install-wait phase (lines 469-470): inited
SNOs have reached the applied/committed count and failed+completed equals
the inited count. -/
def installComplete (d : MonitorData) : Bool :=
  decide (d.sno_applied_committed ≤ d.sno_init) &&
    decide (d.sno_install_failed + d.sno_install_completed = d.sno_init)

/-- Completion predicate of the DU-profile (policy) wait phase (lines 507-508). -/
def duComplete (d : MonitorData) : Bool :=
  decide (d.sno_install_completed ≤ d.policy_init) &&
    decide (d.policy_timedout + d.policy_compliant = d.policy_init)

/-- How a wait phase's `while True` loop was exited. -/
inductive PhaseExit where
  | completed
  | timedOut
  deriving Repr, DecidableEq

/-- One iteration of a wait phase after its 30s sleep: the completion break
is checked first (lines 469-473), then the timeout break, which requires a
positive timeout budget and a strictly larger elapsed time (lines 476-479);
`none` means neither break fired and the loop polls again. -/
def phaseStep (complete : MonitorData → Bool) (waitMax : Nat) (d : MonitorData)
    (elapsed : Nat) : Option PhaseExit :=
  if complete d then some PhaseExit.completed
  else if 0 < waitMax ∧ waitMax < elapsed then some PhaseExit.timedOut
  else none

/-- Wait-phase loop over a finite stream of sampled (counters, elapsed-seconds)
pairs, one per 30-second poll; `none` means the loop was still polling when
the samples ran out. -/
def phaseLoop (complete : MonitorData → Bool) (waitMax : Nat) :
    List (MonitorData × Nat) → Option PhaseExit
  | [] => none
  | s :: rest =>
    match phaseStep complete waitMax s.1 s.2 with
    | some x => some x
    | none => phaseLoop complete waitMax rest

/-- Orchestrator write during a release step: `monitor_data["sno_applied_committed"]`
grows by the number of units released (lines 417 and 425). -/
def applyBatch (d : MonitorData) (n : Nat) : MonitorData :=
  { d with sno_applied_committed := d.sno_applied_committed + n }

/-- Orchestrator write before each wait phase under dry-run:
`monitor_data["sno_applied_committed"] = 0` (lines 462-463 and 500-501). -/
def dryRunReset (d : MonitorData) : MonitorData :=
  { d with sno_applied_committed := 0 }

/-- Post-release control flow of `main` (lines 457-548): the install-wait
phase (unless skipped), then the DU-profile wait phase (if requested), then
the reporting epilogue.  The result is `none` if an executed wait loop never
exited within its samples, and otherwise `some (installExit, duExit, 0)`:
no phase outcome aborts the run, the report is generated, and `main` returns
`None`, so the process exit code is 0. -/
def runAfterDeploy (skipWaitSno waitDu : Bool) (mSno mDu : Nat)
    (s1 s2 : List (MonitorData × Nat)) :
    Option (Option PhaseExit × Option PhaseExit × Nat) :=
  let install : Option (Option PhaseExit) :=
    if skipWaitSno then some none
    else
      match phaseLoop installComplete mSno s1 with
      | some x => some (some x)
      | none => none
  match install with
  | none => none
  | some ie =>
    let du : Option (Option PhaseExit) :=
      if waitDu then
        match phaseLoop duComplete mDu s2 with
        | some x => some (some x)
        | none => none
      else some none
    match du with
    | none => none
    | some de => some (ie, de, 0)

/-- Clipped end index of one scheduler step (lines 407-410). -/
def windowEnd (batch endCfg start : Nat) : Nat :=
  if 0 < endCfg ∧ endCfg < start + batch then endCfg else start + batch

/-- Index windows `[start, end)` released by the interval scheduler loop
(lines 403-435): each step emits a window, advances `start` by `batch`, and
stops when the advanced start reaches the unit count or the window end hit
the configured end index.  `fuel` bounds the recursion; every run below is
instantiated with fuel exceeding the step count. -/
def scheduleWindows (total batch endCfg : Nat) : Nat → Nat → List (Nat × Nat)
  | 0, _ => []
  | fuel + 1, start =>
    let e := windowEnd batch endCfg start
    (start, e) ::
      (if total ≤ start + batch ∨ e = endCfg then []
       else scheduleWindows total batch endCfg fuel (start + batch))

/-- Inventory of 250 siteconfig files, for the concrete scheduler scenario. -/
def snos250 : List String :=
  (List.range 250).map (fun i => "sno" ++ toString i ++ "-siteconfig.yml")

/-- CLI arguments of `sno-deploy-load.py` that the release flow reads.
`start`/`endIdx`/`batch`/`interval`/`monitorInterval` are parsed as (possibly
negative) integers and validated at lines 270-288. -/
structure CliArgs where
  start : Int
  endIdx : Int
  batch : Int
  interval : Int
  monitorInterval : Int
  snosPerApp : Nat
  methodZtp : Bool
  dryRun : Bool
  tmpl : Bool

/-- Release loop over the scheduler windows for the ztp method, threading the
shared `ztp_deploy_apps` member lists through successive `deploy_ztp_snos`
calls; a `nameError` outcome is an uncaught exception that aborts the run. -/
def runWindows (snos : List String) (appsLoc : Nat → String) (c : Nat)
    (dryRun tmpl : Bool) (git : List String → Nat) :
    List (Nat × Nat) → (Nat → List String) → List Event × Option (Nat → List String)
  | [], apps => ([], some apps)
  | w :: ws, apps =>
    match deployZtpSnos snos appsLoc apps w.1 w.2 c dryRun tmpl git with
    | DeployOutcome.nameError tr => (tr, none)
    | DeployOutcome.ok st =>
      let r := runWindows snos appsLoc c dryRun tmpl git ws st.apps
      (st.trace ++ r.1, r.2)

/-- Per-unit `oc apply` loop of the manifests method (lines 416-423): a
non-zero exit code is fatal (`sys.exit(1)`). -/
def ocApplyLoop (ocRc : String → Nat) : List String → Option Nat × List Event
  | [] => (none, [])
  | p :: ps =>
    let rc := ocRc p
    if rc ≠ 0 then (some 1, [Event.ocApply p rc])
    else
      let r := ocApplyLoop ocRc ps
      (r.1, Event.ocApply p rc :: r.2)

/-- Release loop over the scheduler windows for the manifests method. -/
def manifestsRelease (ocRc : String → Nat) (snos : List String) :
    List (Nat × Nat) → Option Nat × List Event
  | [] => (none, [])
  | w :: ws =>
    let r := ocApplyLoop ocRc ((snos.drop w.1).take (w.2 - w.1))
    match r.1 with
    | some code => (some code, r.2)
    | none =>
      let r2 := manifestsRelease ocRc snos ws
      (r2.1, r.2 ++ r2.2)

/-- Pre-flight validation, discovery and release portion of `main`
(lines 270-435), up to the start of the wait phases.  The first component is
`some code` when the process exits early (`sys.exit(code)` or an uncaught
exception), `none` when the release phase completed and the run continues;
the second component is the trace of release actions performed.  Discovery
results are passed in as `snoList` (the sorted glob of siteconfig files) and
`appCount` (the number of ztp cluster apps). -/
def mainRelease (cfg : CliArgs) (snoList : List String) (appCount : Nat)
    (appsLoc : Nat → String) (ocRc : String → Nat) (git : List String → Nat) :
    Option Nat × List Event :=
  if cfg.start < 0 then (some 1, [])
  else if cfg.endIdx < 0 then (some 1, [])
  else if 0 < cfg.endIdx ∧ cfg.endIdx ≤ cfg.start then (some 1, [])
  else if cfg.monitorInterval < 10 then (some 1, [])
  else if cfg.batch < 1 then (some 1, [])
  else if cfg.interval < 0 then (some 1, [])
  else if snoList.length = 0 then (some 1, [])
  else if cfg.methodZtp ∧ appCount * cfg.snosPerApp < snoList.length then (some 1, [])
  else
    let windows := scheduleWindows snoList.length cfg.batch.toNat cfg.endIdx.toNat
        (snoList.length + 1) cfg.start.toNat
    if cfg.methodZtp then
      let r := runWindows snoList appsLoc cfg.snosPerApp cfg.dryRun cfg.tmpl git windows
          (fun _ => [])
      match r.2 with
      | none => (some 1, r.1)
      | some _ => (none, r.1)
    else
      manifestsRelease ocRc snoList windows

/-- Clusterversion conditions as reported by the control plane
(cluster-health.py lines 75-77). -/
structure CvStatus where
  available : String
  failing : String
  progressing : String
  deriving Repr, DecidableEq

/-- Result of one health check: an in-check `sys.exit(code)`, or a normal
return of the check's `success` boolean. -/
inductive CheckResult where
  | exited (code : Nat)
  | finished (success : Bool)
  deriving Repr, DecidableEq

/-- Shallow embedding of `check_clusterversion` (cluster-health.py lines
65-102): `rc` is the exit code the `command` primitive returned for
`oc get clusterversion`.  A non-zero `rc` exits immediately, before the
`force` flag is ever consulted; `force` only downgrades failed condition
checks to a recorded `success = False`. -/
def check_clusterversion (rc : Nat) (cv : CvStatus) (force : Bool) : CheckResult :=
  if rc ≠ 0 then CheckResult.exited 1
  else if !(cv.available == "True") && !force then CheckResult.exited 1
  else if (cv.failing == "True") && !force then CheckResult.exited 1
  else if (cv.progressing == "True") && !force then CheckResult.exited 1
  else
    CheckResult.finished
      ((cv.available == "True") && !(cv.failing == "True") && !(cv.progressing == "True"))

/-- Healthy clusterversion conditions: Available and neither Failing nor
Progressing. -/
def cvHealthy (cv : CvStatus) : Bool :=
  (cv.available == "True") && !(cv.failing == "True") && !(cv.progressing == "True")

/-- Aggregation of the check sequence in cluster-health `main` (lines
344-393): the `healthy` counter accumulates failed checks and becomes the
process exit code; a check that exits aborts the sequence there. -/
def runChecks : List CheckResult → Except Nat Nat
  | [] => Except.ok 0
  | r :: rs =>
    match r with
    | CheckResult.exited code => Except.error code
    | CheckResult.finished true => runChecks rs
    | CheckResult.finished false => Except.map (fun n => n + 1) (runChecks rs)

theorem appsAfter_succ (snos : List String) (c len : Nat) (apps : Nat → List String)
    (start : Nat) :
    appsAfter snos c (len + 1) apps start =
      appsAfter snos c len (stepApps snos c apps start) (start + 1) := rfl

theorem lastAfter_succ (c len l0 start : Nat) :
    lastAfter c (len + 1) l0 start = lastAfter c len (max l0 (start / c)) (start + 1) := rfl

theorem batchTrace_succ (snos : List String) (c : Nat) (w : Bool) (len : Nat)
    (apps : Nat → List String) (l0 start : Nat) :
    batchTrace snos c w (len + 1) apps l0 start =
      (if l0 < start / c then [Event.render l0 (apps l0) w] else [])
        ++ Event.assign start (start / c) (nameAt snos start)
        :: Event.copy start (max l0 (start / c))
        :: batchTrace snos c w len (stepApps snos c apps start) (max l0 (start / c))
             (start + 1) := rfl

theorem processUnit_last (snos : List String) (appsLoc : Nat → String) (c : Nat)
    (dryRun tmpl : Bool) (st : DState) (g : Nat) :
    (processUnit snos appsLoc c dryRun tmpl st g).last = max st.last (g / c) := by
  unfold processUnit
  by_cases h : st.last < g / c
  · cases tmpl <;> simp [h, max_eq_right h.le]
  · cases tmpl <;> simp [h, max_eq_left (Nat.le_of_not_lt h)]

theorem processUnit_apps (snos : List String) (appsLoc : Nat → String) (c : Nat)
    (dryRun tmpl : Bool) (st : DState) (g : Nat) :
    (processUnit snos appsLoc c dryRun tmpl st g).apps = stepApps snos c st.apps g := by
  unfold processUnit
  by_cases h : st.last < g / c
  · cases tmpl <;> simp [h]
  · cases tmpl <;> simp [h]

theorem processUnit_trace (snos : List String) (appsLoc : Nat → String) (c : Nat)
    (dryRun tmpl : Bool) (st : DState) (g : Nat) :
    (processUnit snos appsLoc c dryRun tmpl st g).trace =
      st.trace
        ++ (if st.last < g / c then [Event.render st.last (st.apps st.last) (!dryRun)] else [])
        ++ [Event.assign g (g / c) (nameAt snos g), Event.copy g (max st.last (g / c))] := by
  unfold processUnit
  by_cases h : st.last < g / c
  · cases tmpl <;> simp [h, max_eq_right h.le, List.append_assoc]
  · cases tmpl <;> simp [h, max_eq_left (Nat.le_of_not_lt h), List.append_assoc]

theorem ztpLoop_range'_trace (snos : List String) (appsLoc : Nat → String) (c : Nat)
    (dryRun tmpl : Bool) :
    ∀ (len start : Nat) (st : DState),
      (ztpLoop snos appsLoc c dryRun tmpl (List.range' start len) st).trace =
        st.trace ++ batchTrace snos c (!dryRun) len st.apps st.last start := by
  intro len
  induction len with
  | zero => intro start st; simp [ztpLoop, batchTrace]
  | succ n ih =>
    intro start st
    rw [List.range'_succ]
    show (ztpLoop snos appsLoc c dryRun tmpl (List.range' (start + 1) n)
        (processUnit snos appsLoc c dryRun tmpl st start)).trace = _
    rw [ih (start + 1) (processUnit snos appsLoc c dryRun tmpl st start),
      processUnit_trace, processUnit_apps, processUnit_last]
    rw [batchTrace_succ]
    by_cases h : st.last < start / c <;> simp [h, List.append_assoc]

theorem ztpLoop_range'_apps (snos : List String) (appsLoc : Nat → String) (c : Nat)
    (dryRun tmpl : Bool) :
    ∀ (len start : Nat) (st : DState),
      (ztpLoop snos appsLoc c dryRun tmpl (List.range' start len) st).apps =
        appsAfter snos c len st.apps start := by
  intro len
  induction len with
  | zero => intro start st; simp [ztpLoop, appsAfter]
  | succ n ih =>
    intro start st
    rw [List.range'_succ]
    show (ztpLoop snos appsLoc c dryRun tmpl (List.range' (start + 1) n)
        (processUnit snos appsLoc c dryRun tmpl st start)).apps = _
    rw [ih (start + 1) (processUnit snos appsLoc c dryRun tmpl st start), processUnit_apps]
    rfl

theorem ztpLoop_range'_last (snos : List String) (appsLoc : Nat → String) (c : Nat)
    (dryRun tmpl : Bool) :
    ∀ (len start : Nat) (st : DState),
      (ztpLoop snos appsLoc c dryRun tmpl (List.range' start len) st).last =
        lastAfter c len st.last start := by
  intro len
  induction len with
  | zero => intro start st; simp [ztpLoop, lastAfter]
  | succ n ih =>
    intro start st
    rw [List.range'_succ]
    show (ztpLoop snos appsLoc c dryRun tmpl (List.range' (start + 1) n)
        (processUnit snos appsLoc c dryRun tmpl st start)).last = _
    rw [ih (start + 1) (processUnit snos appsLoc c dryRun tmpl st start), processUnit_last]
    rfl

theorem batchTrace_append (snos : List String) (c : Nat) (w : Bool) :
    ∀ (len1 len2 : Nat) (apps : Nat → List String) (l0 start : Nat),
      batchTrace snos c w (len1 + len2) apps l0 start =
        batchTrace snos c w len1 apps l0 start
          ++ batchTrace snos c w len2 (appsAfter snos c len1 apps start)
               (lastAfter c len1 l0 start) (start + len1) := by
  intro len1
  induction len1 with
  | zero => intro len2 apps l0 start; simp [batchTrace, appsAfter, lastAfter]
  | succ n ih =>
    intro len2 apps l0 start
    have h1 : n + 1 + len2 = (n + len2) + 1 := by omega
    rw [h1, batchTrace_succ,
      ih len2 (stepApps snos c apps start) (max l0 (start / c)) (start + 1),
      batchTrace_succ, appsAfter_succ, lastAfter_succ]
    have h2 : start + 1 + n = start + (n + 1) := by omega
    rw [h2]
    simp [List.append_assoc]

theorem appsAfter_apply (snos : List String) (c : Nat) :
    ∀ (len : Nat) (apps : Nat → List String) (start k : Nat),
      appsAfter snos c len apps start k = apps k ++ shardMembers snos c start (start + len) k := by
  intro len
  induction len with
  | zero => intro apps start k; simp [appsAfter, shardMembers]
  | succ n ih =>
    intro apps start k
    show appsAfter snos c n (stepApps snos c apps start) (start + 1) k = _
    rw [ih (stepApps snos c apps start) (start + 1) k]
    unfold stepApps shardMembers
    rw [Function.update_apply]
    have h1 : start + (n + 1) - start = n + 1 := by omega
    have h2 : start + 1 + n - (start + 1) = n := by omega
    rw [h1, h2, List.range'_succ]
    by_cases hk : k = start / c
    · simp [hk, List.filter_cons, List.append_assoc]
    · have : ¬(start / c = k) := fun e => hk e.symm
      simp [hk, this, List.filter_cons]

theorem lastAfter_eq (c : Nat) :
    ∀ (len l0 start : Nat), l0 ≤ start / c →
      lastAfter c (len + 1) l0 start = (start + len) / c := by
  intro len
  induction len with
  | zero => intro l0 start h; simp [lastAfter, max_eq_right h]
  | succ n ih =>
    intro l0 start h
    show lastAfter c (n + 1) (max l0 (start / c)) (start + 1) = _
    rw [max_eq_right h, ih (start / c) (start + 1) (Nat.div_le_div_right (Nat.le_succ start))]
    congr 1
    omega

theorem assign_mem_batchTrace_bounds (snos : List String) (c : Nat) (w : Bool) :
    ∀ (len : Nat) (apps : Nat → List String) (l0 start g s : Nat) (nm : String),
      Event.assign g s nm ∈ batchTrace snos c w len apps l0 start →
        start ≤ g ∧ g < start + len ∧ s = g / c := by
  intro len
  induction len with
  | zero => intro apps l0 start g s nm h; simp [batchTrace] at h
  | succ n ih =>
    intro apps l0 start g s nm h
    rw [batchTrace_succ] at h
    rcases List.mem_append.mp h with h1 | h2
    · by_cases hr : l0 < start / c <;> simp [hr] at h1
    · simp only [List.mem_cons] at h2
      rcases h2 with h2 | h2 | h2
      · obtain ⟨hg, hs, -⟩ := Event.assign.inj h2
        subst hg
        exact ⟨le_refl _, by omega, hs⟩
      · exact absurd h2 (by simp)
      · obtain ⟨a1, a2, a3⟩ :=
          ih (stepApps snos c apps start) (max l0 (start / c)) (start + 1) g s nm h2
        exact ⟨by omega, by omega, a3⟩

theorem assign_mem_batchTrace (snos : List String) (c : Nat) (w : Bool) :
    ∀ (len : Nat) (apps : Nat → List String) (l0 start g : Nat),
      start ≤ g → g < start + len →
      Event.assign g (g / c) (nameAt snos g) ∈ batchTrace snos c w len apps l0 start := by
  intro len
  induction len with
  | zero => intro apps l0 start g h1 h2; omega
  | succ n ih =>
    intro apps l0 start g h1 h2
    rw [batchTrace_succ]
    by_cases hg : g = start
    · subst hg
      exact List.mem_append.mpr (Or.inr (List.mem_cons_self _ _))
    · refine List.mem_append.mpr (Or.inr (List.mem_cons_of_mem _ (List.mem_cons_of_mem _ ?_)))
      exact ih (stepApps snos c apps start) (max l0 (start / c)) (start + 1) g (by omega) (by omega)

theorem copy_mem_batchTrace (snos : List String) (c : Nat) (w : Bool) :
    ∀ (len : Nat) (apps : Nat → List String) (l0 start g : Nat),
      l0 ≤ start / c → start ≤ g → g < start + len →
      Event.copy g (g / c) ∈ batchTrace snos c w len apps l0 start := by
  intro len
  induction len with
  | zero => intro apps l0 start g h0 h1 h2; omega
  | succ n ih =>
    intro apps l0 start g h0 h1 h2
    rw [batchTrace_succ]
    by_cases hg : g = start
    · subst hg
      rw [max_eq_right h0]
      exact List.mem_append.mpr (Or.inr (List.mem_cons_of_mem _ (List.mem_cons_self _ _)))
    · refine List.mem_append.mpr (Or.inr (List.mem_cons_of_mem _ (List.mem_cons_of_mem _ ?_)))
      refine ih (stepApps snos c apps start) (max l0 (start / c)) (start + 1) g ?_ (by omega) (by omega)
      rw [max_eq_right h0]
      exact Nat.div_le_div_right (Nat.le_succ start)

theorem gitAddFold_trace (git : List String → Nat) :
    ∀ (files : List String) (st : DState),
      (files.foldl
          (fun s f => { s with trace := s.trace ++ [Event.gitAdd f (git ["git", "add", f])] })
          st).trace
        = st.trace ++ files.map (fun f => Event.gitAdd f (git ["git", "add", f])) := by
  intro files
  induction files with
  | nil => intro st; simp
  | cons f fs ih => intro st; rw [List.foldl_cons, ih]; simp

theorem gitAddFold_apps (git : List String → Nat) :
    ∀ (files : List String) (st : DState),
      (files.foldl
          (fun s f => { s with trace := s.trace ++ [Event.gitAdd f (git ["git", "add", f])] })
          st).apps = st.apps := by
  intro files
  induction files with
  | nil => intro st; rfl
  | cons f fs ih => intro st; rw [List.foldl_cons, ih]

theorem gitAddFold_gitFiles (git : List String → Nat) :
    ∀ (files : List String) (st : DState),
      (files.foldl
          (fun s f => { s with trace := s.trace ++ [Event.gitAdd f (git ["git", "add", f])] })
          st).gitFiles = st.gitFiles := by
  intro files
  induction files with
  | nil => intro st; rfl
  | cons f fs ih => intro st; rw [List.foldl_cons, ih]

theorem getLast?_range'_1 : ∀ (s n : Nat), (List.range' s (n + 1)).getLast? = some (s + n) := by
  intro s n
  rw [List.range'_1_concat, List.getLast?_concat]

theorem length_filter_div_le (c k m : Nat) (hc : 0 < c) :
    ((List.range' 0 m).filter (fun g => g / c == k)).length ≤ c := by
  have hnd : ((List.range' 0 m).filter (fun g => g / c == k)).Nodup :=
    (List.nodup_range' 0 m).filter _
  have hsub : ((List.range' 0 m).filter (fun g => g / c == k)).toFinset ⊆
      Finset.Ico (k * c) (k * c + c) := by
    intro x hx
    rw [List.mem_toFinset, List.mem_filter] at hx
    obtain ⟨-, hx2⟩ := hx
    have hxk : x / c = k := by simpa using hx2
    have e1 : x / c * c ≤ x := Nat.div_mul_le_self x c
    have e2 : x / c * c + x % c = x := Nat.div_add_mod' x c
    have e3 : x % c < c := Nat.mod_lt x hc
    rw [Finset.mem_Ico, ← hxk]
    omega
  calc ((List.range' 0 m).filter (fun g => g / c == k)).length
      = ((List.range' 0 m).filter (fun g => g / c == k)).toFinset.card :=
        (List.toFinset_card_of_nodup hnd).symm
    _ ≤ (Finset.Ico (k * c) (k * c + c)).card := Finset.card_le_card hsub
    _ = c := by rw [Nat.card_Ico]; omega

theorem shardMembers_length_le (snos : List String) (c m k : Nat) (hc : 0 < c) :
    (shardMembers snos c 0 m k).length ≤ c := by
  unfold shardMembers
  rw [List.length_map]
  simpa using length_filter_div_le c k m hc

theorem shardMembers_append (snos : List String) (c lo mid hi k : Nat)
    (h1 : lo ≤ mid) (h2 : mid ≤ hi) :
    shardMembers snos c lo mid k ++ shardMembers snos c mid hi k =
      shardMembers snos c lo hi k := by
  unfold shardMembers
  rw [← List.map_append, ← List.filter_append]
  have e := List.range'_append lo (mid - lo) (hi - mid) 1
  rw [show lo + 1 * (mid - lo) = mid from by omega] at e
  rw [show hi - mid + (mid - lo) = hi - lo from by omega] at e
  rw [e]

/-- Characterization of a `deploy_ztp_snos` call on a non-empty index range:
the call returns normally; its trace is the per-unit loop trace, then the
unconditional final render of the shard of the last unit (with the member
names that shard accumulated), then the git add/commit/push commands; and
each shard's final member list is its initial one extended, in index order,
by the names of the batch's units that map to it. -/
theorem deployZtpSnos_spec (snos : List String) (appsLoc : Nat → String)
    (apps0 : Nat → List String) (startIdx endIdx c : Nat) (dryRun tmpl : Bool)
    (git : List String → Nat) (h : startIdx < min endIdx snos.length) :
    ∃ st : DState,
      deployZtpSnos snos appsLoc apps0 startIdx endIdx c dryRun tmpl git =
        DeployOutcome.ok st ∧
      st.trace =
        batchTrace snos c (!dryRun) (min endIdx snos.length - startIdx) apps0
            (startIdx / c) startIdx
          ++ Event.render ((min endIdx snos.length - 1) / c)
               (apps0 ((min endIdx snos.length - 1) / c)
                 ++ shardMembers snos c startIdx (min endIdx snos.length)
                      ((min endIdx snos.length - 1) / c)) (!dryRun)
          :: (st.gitFiles.map (fun f => Event.gitAdd f (git ["git", "add", f]))
              ++ [Event.gitCommit startIdx endIdx (git (commitCmd startIdx endIdx)),
                  Event.gitPush (git ["git", "push"])]) ∧
      ∀ k, st.apps k = apps0 k ++ shardMembers snos c startIdx (min endIdx snos.length) k := by
  have hlen : min endIdx snos.length - startIdx =
      (min endIdx snos.length - startIdx - 1) + 1 := by omega
  have hgl : (List.range' startIdx (min endIdx snos.length - startIdx)).getLast? =
      some (min endIdx snos.length - 1) := by
    rw [hlen, getLast?_range'_1]
    congr 1
    omega
  unfold deployZtpSnos
  simp only [hgl]
  refine ⟨_, rfl, ?_, ?_⟩
  · simp only [gitAddFold_trace, gitAddFold_gitFiles,
      ztpLoop_range'_trace snos appsLoc c dryRun tmpl (min endIdx snos.length - startIdx)
        startIdx,
      ztpLoop_range'_apps snos appsLoc c dryRun tmpl (min endIdx snos.length - startIdx)
        startIdx]
    rw [appsAfter_apply, show startIdx + (min endIdx snos.length - startIdx) =
      min endIdx snos.length from by omega]
    simp [List.append_assoc]
  · intro k
    simp only [gitAddFold_apps,
      ztpLoop_range'_apps snos appsLoc c dryRun tmpl (min endIdx snos.length - startIdx)
        startIdx]
    rw [appsAfter_apply, show startIdx + (min endIdx snos.length - startIdx) =
      min endIdx snos.length from by omega]

/-- C10: `deploy_ztp_snos` is only defined for a non-empty index range — when
`[start_index, end_index)` selects no units (start at or past the end index,
or start beyond the inventory), the unconditional final manifest render reads
the never-bound loop variable `ztp_app_index`, so the call raises an
unhandled NameError with an empty action trace: no git add, commit, or push
was attempted. -/
theorem c10_empty_range_raises_name_error (snos : List String) (appsLoc : Nat → String)
    (apps0 : Nat → List String) (startIdx endIdx c : Nat) (dryRun tmpl : Bool)
    (git : List String → Nat) (h : min endIdx snos.length ≤ startIdx) :
    deployZtpSnos snos appsLoc apps0 startIdx endIdx c dryRun tmpl git =
      DeployOutcome.nameError [] := by
  have h0 : min endIdx snos.length - startIdx = 0 := by omega
  simp [deployZtpSnos, h0, ztpLoop]

/-- Witness for C10 at a concrete empty slice: two units, start index 2. -/
theorem c10_empty_range_raises_name_error_witness :
    min 5 (["sno00001-siteconfig.yml", "sno00002-siteconfig.yml"] : List String).length ≤ 2 ∧
    deployZtpSnos ["sno00001-siteconfig.yml", "sno00002-siteconfig.yml"]
        (fun k => "ztp-app-" ++ toString k) (fun _ => ([] : List String)) 2 5 100 false false
        (fun _ => 0) = DeployOutcome.nameError [] :=
  ⟨by decide, c10_empty_range_raises_name_error _ _ _ 2 5 100 false false _ (by decide)⟩

/-- C1: every unit released by `deploy_ztp_snos` with per-shard capacity `c`
is assigned to shard `⌊i / c⌋` of its global index `i` — its name is appended
to that shard's member list and its artifact files are copied into that
shard's directory — and, when the incoming member lists are the cumulative
assignment of all earlier indices, each shard's final member list is exactly
the units of `[0, min end n)` that map to it, in assignment order, of length
at most `c`. -/
theorem c1_shard_assignment (snos : List String) (appsLoc : Nat → String)
    (apps0 : Nat → List String) (startIdx endIdx c : Nat) (dryRun tmpl : Bool)
    (git : List String → Nat) (hc : 0 < c)
    (h0 : ∀ k, apps0 k = shardMembers snos c 0 startIdx k)
    (h : startIdx < min endIdx snos.length) :
    ∃ st : DState,
      deployZtpSnos snos appsLoc apps0 startIdx endIdx c dryRun tmpl git =
        DeployOutcome.ok st ∧
      (∀ g, startIdx ≤ g → g < min endIdx snos.length →
        Event.assign g (g / c) (nameAt snos g) ∈ st.trace ∧
        Event.copy g (g / c) ∈ st.trace) ∧
      (∀ k, st.apps k = shardMembers snos c 0 (min endIdx snos.length) k) ∧
      ∀ k, (st.apps k).length ≤ c := by
  obtain ⟨st, hok, htr, happs⟩ :=
    deployZtpSnos_spec snos appsLoc apps0 startIdx endIdx c dryRun tmpl git h
  have hfull : ∀ k, st.apps k = shardMembers snos c 0 (min endIdx snos.length) k := by
    intro k
    rw [happs k, h0 k,
      shardMembers_append snos c 0 startIdx (min endIdx snos.length) k (by omega) (by omega)]
  refine ⟨st, hok, ?_, hfull, ?_⟩
  · intro g hg1 hg2
    constructor
    · rw [htr]
      refine List.mem_append.mpr (Or.inl ?_)
      exact assign_mem_batchTrace snos c (!dryRun) (min endIdx snos.length - startIdx)
        apps0 (startIdx / c) startIdx g hg1 (by omega)
    · rw [htr]
      refine List.mem_append.mpr (Or.inl ?_)
      exact copy_mem_batchTrace snos c (!dryRun) (min endIdx snos.length - startIdx)
        apps0 (startIdx / c) startIdx g (le_refl _) hg1 (by omega)
  · intro k
    rw [hfull k]
    exact shardMembers_length_le snos c (min endIdx snos.length) k hc

/-- Witness for C1: three units, capacity 2, full range. -/
theorem c1_shard_assignment_witness :
    0 < 2 ∧ 0 < min 3 (["s1-siteconfig.yml", "s2-siteconfig.yml", "s3-siteconfig.yml"] :
      List String).length ∧
    ∃ st : DState,
      deployZtpSnos ["s1-siteconfig.yml", "s2-siteconfig.yml", "s3-siteconfig.yml"]
          (fun k => "ztp-app-" ++ toString k) (fun _ => ([] : List String)) 0 3 2 false false
          (fun _ => 0) = DeployOutcome.ok st ∧
      (∀ g, 0 ≤ g →
        g < min 3 (["s1-siteconfig.yml", "s2-siteconfig.yml", "s3-siteconfig.yml"] :
          List String).length →
        Event.assign g (g / 2)
            (nameAt ["s1-siteconfig.yml", "s2-siteconfig.yml", "s3-siteconfig.yml"] g) ∈
          st.trace ∧
        Event.copy g (g / 2) ∈ st.trace) ∧
      (∀ k, st.apps k =
        shardMembers ["s1-siteconfig.yml", "s2-siteconfig.yml", "s3-siteconfig.yml"] 2 0
          (min 3 (["s1-siteconfig.yml", "s2-siteconfig.yml", "s3-siteconfig.yml"] :
            List String).length) k) ∧
      ∀ k, (st.apps k).length ≤ 2 :=
  ⟨by decide, by decide,
    c1_shard_assignment _ _ _ 0 3 2 false false _ (by decide) (fun k => rfl) (by decide)⟩

/-- C6 counterexample to the claim as stated: with every git invocation
returning exit code 1, the call still returns normally (nothing is
propagated to the caller) and, after the failed adds and the failed commit,
it still runs `git push` — the run silently continues past the failures. -/
theorem c6_counterexample :
    (deployZtpSnos ["sno00001-siteconfig.yml"] (fun _ => "ztp-app-0")
        (fun _ => ([] : List String)) 0 1 100 false false failingGit).isNormal = true ∧
    Event.gitCommit 0 1 1 ∈
      (deployZtpSnos ["sno00001-siteconfig.yml"] (fun _ => "ztp-app-0")
        (fun _ => ([] : List String)) 0 1 100 false false failingGit).traceOf ∧
    Event.gitPush 1 ∈
      (deployZtpSnos ["sno00001-siteconfig.yml"] (fun _ => "ztp-app-0")
        (fun _ => ([] : List String)) 0 1 100 false false failingGit).traceOf := by
  decide

/-- C6 (amended): `deploy_ztp_snos` never consults the exit codes of its git
invocations — for every rc oracle, a call on a non-empty range returns
normally, and its trace still ends with the commit and the push, whatever
codes the git commands returned; no version-control failure is propagated to
the caller. -/
theorem c6_git_failures_ignored (snos : List String) (appsLoc : Nat → String)
    (apps0 : Nat → List String) (startIdx endIdx c : Nat) (dryRun tmpl : Bool)
    (git : List String → Nat) (h : startIdx < min endIdx snos.length) :
    ∃ st : DState,
      deployZtpSnos snos appsLoc apps0 startIdx endIdx c dryRun tmpl git =
        DeployOutcome.ok st ∧
      ∃ pre, st.trace =
        pre ++ [Event.gitCommit startIdx endIdx (git (commitCmd startIdx endIdx)),
                Event.gitPush (git ["git", "push"])] := by
  obtain ⟨st, hok, htr, -⟩ :=
    deployZtpSnos_spec snos appsLoc apps0 startIdx endIdx c dryRun tmpl git h
  refine ⟨st, hok,
    batchTrace snos c (!dryRun) (min endIdx snos.length - startIdx) apps0 (startIdx / c)
        startIdx
      ++ Event.render ((min endIdx snos.length - 1) / c)
           (apps0 ((min endIdx snos.length - 1) / c)
             ++ shardMembers snos c startIdx (min endIdx snos.length)
                  ((min endIdx snos.length - 1) / c)) (!dryRun)
      :: st.gitFiles.map (fun f => Event.gitAdd f (git ["git", "add", f])), ?_⟩
  rw [htr]
  simp [List.append_assoc]

/-- Witness for the amended C6 at the all-failing git oracle. -/
theorem c6_git_failures_ignored_witness :
    0 < min 1 (["sno00001-siteconfig.yml"] : List String).length ∧
    ∃ st : DState,
      deployZtpSnos ["sno00001-siteconfig.yml"] (fun _ => "ztp-app-0")
          (fun _ => ([] : List String)) 0 1 100 false false failingGit =
        DeployOutcome.ok st ∧
      ∃ pre, st.trace =
        pre ++ [Event.gitCommit 0 1 (failingGit (commitCmd 0 1)),
                Event.gitPush (failingGit ["git", "push"])] :=
  ⟨by decide, c6_git_failures_ignored _ _ _ 0 1 100 false false failingGit (by decide)⟩

/-- C3: within one `deploy_ztp_snos` call, whenever a unit's computed shard
index advances past the previously active one, the previous shard's
membership manifest — holding every member it received up to that unit — is
rendered (written unless dry-run) immediately before that unit's assignment,
with every earlier assignment going to a lower shard; and after the last
unit the manifest of the shard last touched is rendered once more
unconditionally, followed only by git commands. -/
theorem c3_shard_close_ordering (snos : List String) (appsLoc : Nat → String)
    (apps0 : Nat → List String) (startIdx endIdx c : Nat) (dryRun tmpl : Bool)
    (git : List String → Nat) (h : startIdx < min endIdx snos.length) :
    ∃ st : DState,
      deployZtpSnos snos appsLoc apps0 startIdx endIdx c dryRun tmpl git =
        DeployOutcome.ok st ∧
      (∀ g, startIdx < g → g < min endIdx snos.length → (g - 1) / c < g / c →
        ∃ t1 t2, st.trace =
            t1 ++ Event.render ((g - 1) / c)
                    (apps0 ((g - 1) / c) ++ shardMembers snos c startIdx g ((g - 1) / c))
                    (!dryRun)
               :: Event.assign g (g / c) (nameAt snos g) :: t2 ∧
          ∀ g' s nm, Event.assign g' s nm ∈ t1 → s < g / c) ∧
      ∃ t3 t4, st.trace =
          t3 ++ Event.render ((min endIdx snos.length - 1) / c)
                  (apps0 ((min endIdx snos.length - 1) / c)
                    ++ shardMembers snos c startIdx (min endIdx snos.length)
                         ((min endIdx snos.length - 1) / c)) (!dryRun) :: t4 ∧
        ∀ e ∈ t4, isGitEvent e = true := by
  obtain ⟨st, hok, htr, -⟩ :=
    deployZtpSnos_spec snos appsLoc apps0 startIdx endIdx c dryRun tmpl git h
  refine ⟨st, hok, ?_, ?_⟩
  · intro g hg1 hg2 hgc
    have hsplit : min endIdx snos.length - startIdx =
        (g - startIdx) + (min endIdx snos.length - g) := by omega
    rw [hsplit, batchTrace_append] at htr
    have hlast : lastAfter c (g - startIdx) (startIdx / c) startIdx = (g - 1) / c := by
      have e1 : g - startIdx = ((g - 1) - startIdx) + 1 := by omega
      rw [e1, lastAfter_eq c ((g - 1) - startIdx) (startIdx / c) startIdx (le_refl _)]
      congr 1
      omega
    have hstart : startIdx + (g - startIdx) = g := by omega
    rw [hlast, hstart] at htr
    have hlen2 : min endIdx snos.length - g = (min endIdx snos.length - g - 1) + 1 := by
      omega
    rw [hlen2, batchTrace_succ, if_pos hgc,
      appsAfter_apply snos c (g - startIdx) apps0 startIdx ((g - 1) / c), hstart] at htr
    have ht2 : st.trace =
        batchTrace snos c (!dryRun) (g - startIdx) apps0 (startIdx / c) startIdx
          ++ Event.render ((g - 1) / c)
               (apps0 ((g - 1) / c) ++ shardMembers snos c startIdx g ((g - 1) / c))
               (!dryRun)
          :: Event.assign g (g / c) (nameAt snos g)
          :: (Event.copy g (max ((g - 1) / c) (g / c))
              :: (batchTrace snos c (!dryRun) (min endIdx snos.length - g - 1)
                    (stepApps snos c (appsAfter snos c (g - startIdx) apps0 startIdx) g)
                    (max ((g - 1) / c) (g / c)) (g + 1)
                  ++ Event.render ((min endIdx snos.length - 1) / c)
                       (apps0 ((min endIdx snos.length - 1) / c)
                         ++ shardMembers snos c startIdx (min endIdx snos.length)
                              ((min endIdx snos.length - 1) / c)) (!dryRun)
                  :: (st.gitFiles.map (fun f => Event.gitAdd f (git ["git", "add", f]))
                      ++ [Event.gitCommit startIdx endIdx (git (commitCmd startIdx endIdx)),
                          Event.gitPush (git ["git", "push"])]))) := by
      rw [htr]
      simp [List.append_assoc]
    refine ⟨_, _, ht2, ?_⟩
    intro g' s nm hmem
    obtain ⟨b1, b2, b3⟩ := assign_mem_batchTrace_bounds snos c (!dryRun) (g - startIdx)
      apps0 (startIdx / c) startIdx g' s nm hmem
    have hd : g' / c ≤ (g - 1) / c := Nat.div_le_div_right (by omega)
    omega
  · refine ⟨batchTrace snos c (!dryRun) (min endIdx snos.length - startIdx) apps0
        (startIdx / c) startIdx,
      st.gitFiles.map (fun f => Event.gitAdd f (git ["git", "add", f]))
        ++ [Event.gitCommit startIdx endIdx (git (commitCmd startIdx endIdx)),
            Event.gitPush (git ["git", "push"])], htr, ?_⟩
    intro e he
    rcases List.mem_append.mp he with h1 | h2
    · obtain ⟨f, -, rfl⟩ := List.mem_map.mp h1
      rfl
    · simp only [List.mem_cons] at h2
      rcases h2 with rfl | rfl | h2
      · rfl
      · rfl
      · simp at h2

/-- Witness for C3: three units, capacity 2 — the shard boundary at unit 2
and a final batch ending mid-shard. -/
theorem c3_shard_close_ordering_witness :
    0 < min 3 (["s1-siteconfig.yml", "s2-siteconfig.yml", "s3-siteconfig.yml"] :
      List String).length ∧
    ∃ st : DState,
      deployZtpSnos ["s1-siteconfig.yml", "s2-siteconfig.yml", "s3-siteconfig.yml"]
          (fun k => "ztp-app-" ++ toString k) (fun _ => ([] : List String)) 0 3 2 false false
          (fun _ => 0) = DeployOutcome.ok st ∧
      (∀ g, 0 < g →
        g < min 3 (["s1-siteconfig.yml", "s2-siteconfig.yml", "s3-siteconfig.yml"] :
          List String).length →
        (g - 1) / 2 < g / 2 →
        ∃ t1 t2, st.trace =
            t1 ++ Event.render ((g - 1) / 2)
                    ((fun _ => ([] : List String)) ((g - 1) / 2)
                      ++ shardMembers ["s1-siteconfig.yml", "s2-siteconfig.yml",
                           "s3-siteconfig.yml"] 2 0 g ((g - 1) / 2)) (!false)
               :: Event.assign g (g / 2)
                    (nameAt ["s1-siteconfig.yml", "s2-siteconfig.yml", "s3-siteconfig.yml"] g)
               :: t2 ∧
          ∀ g' s nm, Event.assign g' s nm ∈ t1 → s < g / 2) ∧
      ∃ t3 t4, st.trace =
          t3 ++ Event.render
                  ((min 3 (["s1-siteconfig.yml", "s2-siteconfig.yml", "s3-siteconfig.yml"] :
                    List String).length - 1) / 2)
                  ((fun _ => ([] : List String))
                     ((min 3 (["s1-siteconfig.yml", "s2-siteconfig.yml",
                       "s3-siteconfig.yml"] : List String).length - 1) / 2)
                    ++ shardMembers ["s1-siteconfig.yml", "s2-siteconfig.yml",
                         "s3-siteconfig.yml"] 2 0
                         (min 3 (["s1-siteconfig.yml", "s2-siteconfig.yml",
                           "s3-siteconfig.yml"] : List String).length)
                         ((min 3 (["s1-siteconfig.yml", "s2-siteconfig.yml",
                           "s3-siteconfig.yml"] : List String).length - 1) / 2)) (!false)
             :: t4 ∧
        ∀ e ∈ t4, isGitEvent e = true :=
  ⟨by decide, c3_shard_close_ordering _ _ _ 0 3 2 false false _ (by decide)⟩

theorem scheduleWindows_succ (total batch endCfg fuel start : Nat) :
    scheduleWindows total batch endCfg (fuel + 1) start =
      (start, windowEnd batch endCfg start) ::
        (if total ≤ start + batch ∨ windowEnd batch endCfg start = endCfg then []
         else scheduleWindows total batch endCfg fuel (start + batch)) := rfl

theorem scheduleWindows_not_done_of_mem_dropLast :
    ∀ (total batch endCfg fuel start : Nat) (w : Nat × Nat),
      w ∈ (scheduleWindows total batch endCfg fuel start).dropLast →
      ¬(total ≤ w.1 + batch ∨ w.2 = endCfg) := by
  intro total batch endCfg fuel
  induction fuel with
  | zero => intro start w hw; simp [scheduleWindows] at hw
  | succ n ih =>
    intro start w hw
    rw [scheduleWindows_succ] at hw
    by_cases hd : total ≤ start + batch ∨ windowEnd batch endCfg start = endCfg
    · rw [if_pos hd] at hw
      simp at hw
    · rw [if_neg hd] at hw
      cases hrest : scheduleWindows total batch endCfg n (start + batch) with
      | nil => rw [hrest] at hw; simp at hw
      | cons a l =>
        rw [hrest, List.dropLast_cons₂] at hw
        rcases List.mem_cons.mp hw with rfl | hw2
        · exact hd
        · exact ih (start + batch) w (by rw [hrest]; exact hw2)

/-- C4: the interval scheduler loop stops exactly when the advanced start
index reaches the unit count or the window end equals the configured end
index — every non-final window fails that condition and a window meeting it
is final — and for 250 units, batch 100, configured end 0 it performs
exactly three release steps of sizes 100, 100 and 50, the third of which
still reaches the Materializer and its unconditional render of shard 2's
membership manifest. -/
theorem c4_scheduler_termination :
    (∀ total batch endCfg fuel start w,
      w ∈ (scheduleWindows total batch endCfg fuel start).dropLast →
      ¬(total ≤ w.1 + batch ∨ w.2 = endCfg)) ∧
    (∀ total batch endCfg fuel start,
      (total ≤ start + batch ∨ windowEnd batch endCfg start = endCfg) →
      scheduleWindows total batch endCfg (fuel + 1) start =
        [(start, windowEnd batch endCfg start)]) ∧
    scheduleWindows 250 100 0 10 0 = [(0, 100), (100, 200), (200, 300)] ∧
    (scheduleWindows 250 100 0 10 0).map (fun w => min w.2 250 - w.1) = [100, 100, 50] ∧
    ∃ (st : DState) (t3 t4 : List Event),
      deployZtpSnos snos250 (fun k => "ztp-app-" ++ toString k)
          (fun _ => ([] : List String)) 200 300 100 false false (fun _ => 0) =
        DeployOutcome.ok st ∧
      st.trace = t3 ++ Event.render 2 (shardMembers snos250 100 200 250 2) true :: t4 := by
  refine ⟨scheduleWindows_not_done_of_mem_dropLast, ?_, by decide, by decide, ?_⟩
  · intro total batch endCfg fuel start hd
    rw [scheduleWindows_succ, if_pos hd]
  · have hlen : snos250.length = 250 := by simp [snos250]
    have hm : 200 < min 300 snos250.length := by rw [hlen]; omega
    obtain ⟨st, hok, htr, -⟩ := deployZtpSnos_spec snos250 (fun k => "ztp-app-" ++ toString k)
      (fun _ => ([] : List String)) 200 300 100 false false (fun _ => 0) hm
    have h3 : min 300 snos250.length = 250 := by rw [hlen]; omega
    rw [h3] at htr
    have h4 : (250 - 1) / 100 = 2 := by norm_num
    rw [h4] at htr
    simp only [List.nil_append, Bool.not_false] at htr
    exact ⟨st, _, _, hok, htr⟩

/-- Witness for C4's universally quantified parts at concrete windows. -/
theorem c4_scheduler_termination_witness :
    ((0, 100) ∈ (scheduleWindows 250 100 0 10 0).dropLast ∧
      ¬(250 ≤ 0 + 100 ∨ (100 : Nat) = 0)) ∧
    (250 ≤ 200 + 100 ∨ windowEnd 100 0 200 = 0) ∧
    scheduleWindows 250 100 0 1 200 = [(200, windowEnd 100 0 200)] :=
  ⟨⟨by decide, c4_scheduler_termination.1 250 100 0 10 0 (0, 100) (by decide)⟩,
    by decide, c4_scheduler_termination.2.1 250 100 0 0 200 (by decide)⟩

/-- C2: the install-wait phase exits via completion exactly when the started
(inited) counter has reached the applied/committed counter and
failed + completed equals the started counter; with S = 100, F = 3, C = 97
the poll exits via completion, while with S = 100, F = 3, C = 90 (budget
10800s) three successive 30-second polls fire neither break — the loop keeps
polling. -/
theorem c2_install_wait_completion :
    (∀ (waitMax : Nat) (d : MonitorData) (elapsed : Nat),
      phaseStep installComplete waitMax d elapsed = some PhaseExit.completed ↔
        (d.sno_applied_committed ≤ d.sno_init ∧
          d.sno_install_failed + d.sno_install_completed = d.sno_init)) ∧
    phaseStep installComplete 10800 mdInstallDone 30 = some PhaseExit.completed ∧
    phaseLoop installComplete 10800
      [(mdInstallShort, 30), (mdInstallShort, 60), (mdInstallShort, 90)] = none := by
  refine ⟨?_, by decide, by decide⟩
  intro waitMax d elapsed
  have hic : installComplete d = true ↔
      (d.sno_applied_committed ≤ d.sno_init ∧
        d.sno_install_failed + d.sno_install_completed = d.sno_init) := by
    simp [installComplete]
  unfold phaseStep
  split_ifs with h1 h2
  · exact iff_of_true rfl (hic.mp h1)
  · exact iff_of_false (by simp) (fun hp => h1 (hic.mpr hp))
  · exact iff_of_false (by simp) (fun hp => h1 (hic.mpr hp))

/-- C5 counterexample to the claim as stated: with budget M = 10 and elapsed
11 > M, a poll whose counters satisfy the completion predicate exits via
completion, not with a timed-out outcome — the completion break is checked
first. -/
theorem c5_counterexample :
    0 < 10 ∧ 10 < 11 ∧
    phaseStep installComplete 10 mdZero 11 = some PhaseExit.completed ∧
    phaseStep installComplete 10 mdZero 11 ≠ some PhaseExit.timedOut := by decide

/-- C5 (amended): for either wait phase, when the budget M is positive, the
elapsed time exceeds M, and the completion predicate does not hold at that
poll, the phase exits with the timed-out outcome; with M = 0 a timeout exit
is impossible (the wait is unbounded); and a timed-out install-wait never
aborts the run — the DU phase still runs and the run reaches reporting with
process exit code 0. -/
theorem c5_phase_timeout_soft :
    (∀ (p : MonitorData → Bool) (M : Nat) (d : MonitorData) (e : Nat),
      0 < M → M < e → p d = false → phaseStep p M d e = some PhaseExit.timedOut) ∧
    (∀ (p : MonitorData → Bool) (d : MonitorData) (e : Nat),
      phaseStep p 0 d e ≠ some PhaseExit.timedOut) ∧
    (∀ (mSno mDu : Nat) (s1 s2 : List (MonitorData × Nat)) (x : PhaseExit),
      phaseLoop installComplete mSno s1 = some PhaseExit.timedOut →
      phaseLoop duComplete mDu s2 = some x →
      runAfterDeploy false true mSno mDu s1 s2 =
        some (some PhaseExit.timedOut, some x, 0)) ∧
    (∀ (mSno mDu : Nat) (s1 s2 : List (MonitorData × Nat)),
      phaseLoop installComplete mSno s1 = some PhaseExit.timedOut →
      runAfterDeploy false false mSno mDu s1 s2 =
        some (some PhaseExit.timedOut, none, 0)) := by
  refine ⟨?_, ?_, ?_, ?_⟩
  · intro p M d e hM he hp
    unfold phaseStep
    rw [if_neg (by simp [hp]), if_pos ⟨hM, he⟩]
  · intro p d e
    unfold phaseStep
    split_ifs with h1 h2
    · simp
    · exact absurd h2.1 (lt_irrefl 0)
    · simp
  · intro mSno mDu s1 s2 x h1 h2
    simp [runAfterDeploy, h1, h2]
  · intro mSno mDu s1 s2 h1
    simp [runAfterDeploy, h1]

/-- Witness for the amended C5: a timed-out install-wait sample stream and a
completing DU stream. -/
theorem c5_phase_timeout_soft_witness :
    (0 < 10 ∧ 10 < 41 ∧ installComplete mdInstallShort = false ∧
      phaseStep installComplete 10 mdInstallShort 41 = some PhaseExit.timedOut) ∧
    runAfterDeploy false true 10 0 [(mdInstallShort, 41)] [(mdZero, 30)] =
      some (some PhaseExit.timedOut, some PhaseExit.completed, 0) :=
  ⟨⟨by decide, by decide, by decide,
      c5_phase_timeout_soft.1 installComplete 10 mdInstallShort 41 (by decide) (by decide)
        (by decide)⟩,
    c5_phase_timeout_soft.2.2.1 10 0 [(mdInstallShort, 41)] [(mdZero, 30)]
      PhaseExit.completed (by decide) (by decide)⟩

/-- C7 counterexample: a release step of the primary task writes the shared
counters mapping — applying a batch of 100 units changes
`sno_applied_committed` from 0 to 100. -/
theorem c7_counterexample :
    (applyBatch mdZero 100).sno_applied_committed = 100 ∧
    mdZero.sno_applied_committed = 0 ∧ applyBatch mdZero 100 ≠ mdZero := by decide

/-- C7 (amended): the orchestrator writes exactly one counter,
`sno_applied_committed` — adding the released unit count at each release
step, and resetting it to zero under dry-run before a wait phase — and both
of those operations leave every other field of the counters structure
unchanged. -/
theorem c7_orchestrator_counter_frame :
    ∀ (d : MonitorData) (n : Nat),
      (applyBatch d n).sno_applied_committed = d.sno_applied_committed + n ∧
      (dryRunReset d).sno_applied_committed = 0 ∧
      (applyBatch d n).sno_init = d.sno_init ∧
      (applyBatch d n).sno_notstarted = d.sno_notstarted ∧
      (applyBatch d n).sno_booted = d.sno_booted ∧
      (applyBatch d n).sno_discovered = d.sno_discovered ∧
      (applyBatch d n).sno_installing = d.sno_installing ∧
      (applyBatch d n).sno_install_failed = d.sno_install_failed ∧
      (applyBatch d n).sno_install_completed = d.sno_install_completed ∧
      (applyBatch d n).managed = d.managed ∧
      (applyBatch d n).policy_init = d.policy_init ∧
      (applyBatch d n).policy_notstarted = d.policy_notstarted ∧
      (applyBatch d n).policy_applying = d.policy_applying ∧
      (applyBatch d n).policy_timedout = d.policy_timedout ∧
      (applyBatch d n).policy_compliant = d.policy_compliant ∧
      (dryRunReset d).sno_init = d.sno_init ∧
      (dryRunReset d).sno_notstarted = d.sno_notstarted ∧
      (dryRunReset d).sno_booted = d.sno_booted ∧
      (dryRunReset d).sno_discovered = d.sno_discovered ∧
      (dryRunReset d).sno_installing = d.sno_installing ∧
      (dryRunReset d).sno_install_failed = d.sno_install_failed ∧
      (dryRunReset d).sno_install_completed = d.sno_install_completed ∧
      (dryRunReset d).managed = d.managed ∧
      (dryRunReset d).policy_init = d.policy_init ∧
      (dryRunReset d).policy_notstarted = d.policy_notstarted ∧
      (dryRunReset d).policy_applying = d.policy_applying ∧
      (dryRunReset d).policy_timedout = d.policy_timedout ∧
      (dryRunReset d).policy_compliant = d.policy_compliant :=
  fun _ _ =>
    ⟨rfl, rfl, rfl, rfl, rfl, rfl, rfl, rfl, rfl, rfl, rfl, rfl, rfl, rfl, rfl, rfl, rfl,
      rfl, rfl, rfl, rfl, rfl, rfl, rfl, rfl, rfl, rfl, rfl⟩

/-- C8: with zero discovered units the run exits with code 1 during
pre-flight — for every configuration and every oracle, the release flow on
an empty inventory returns exit code 1 with an empty action trace, so no
commit, push, or other release action precedes the exit. -/
theorem c8_zero_units_preflight_exit :
    ∀ (cfg : CliArgs) (appCount : Nat) (appsLoc : Nat → String) (ocRc : String → Nat)
      (git : List String → Nat),
      mainRelease cfg [] appCount appsLoc ocRc git = (some 1, []) := by
  intro cfg appCount appsLoc ocRc git
  unfold mainRelease
  split_ifs <;> simp_all

/-- C9 counterexample to the claim as stated: with the force/continue policy
supplied, a non-zero exit code from the control-plane command still makes
`check_clusterversion` exit the process with code 1 instead of recording the
failure and continuing. -/
theorem c9_counterexample :
    check_clusterversion 1 ⟨"True", "False", "False"⟩ true = CheckResult.exited 1 ∧
    (∀ b : Bool, CheckResult.exited 1 ≠ CheckResult.finished b) := by decide

/-- C9 (amended): a non-zero control-plane exit code is fatal to
`check_clusterversion` regardless of the force policy; `force` only makes
failed health-condition evaluations non-fatal — under force a successful
command always returns, recording exactly whether the conditions were
healthy — and a sequence of returning checks always runs to the end, the
count of failed checks becoming the process exit code. -/
theorem c9_force_policy :
    (∀ (rc : Nat) (cv : CvStatus) (force : Bool), rc ≠ 0 →
      check_clusterversion rc cv force = CheckResult.exited 1) ∧
    (∀ cv : CvStatus,
      check_clusterversion 0 cv true = CheckResult.finished (cvHealthy cv)) ∧
    (∀ rs : List Bool,
      runChecks (rs.map CheckResult.finished) = Except.ok (rs.count false)) := by
  refine ⟨?_, ?_, ?_⟩
  · intro rc cv force h
    unfold check_clusterversion
    rw [if_pos h]
  · intro cv
    simp [check_clusterversion, cvHealthy]
  · intro rs
    induction rs with
    | nil => rfl
    | cons b l ih => cases b <;> simp [runChecks, ih, List.count_cons, Except.map]

/-- Witness for the amended C9 at a failed command under force. -/
theorem c9_force_policy_witness :
    (1 : Nat) ≠ 0 ∧
    check_clusterversion 1 ⟨"False", "True", "True"⟩ true = CheckResult.exited 1 :=
  ⟨by decide, c9_force_policy.1 1 ⟨"False", "True", "True"⟩ true (by decide)⟩

end SnoDeployLoad
